import Mathlib

/- Verification development for the Obsidian AI copilot plugin core.

   The definitions below are a shallow embedding of the plugin source
   (main.ts and the revised plugin file): the document-tree operation
   handlers, the heading-deduplication filter, the single-note rewrite
   wrapper, the tool registry, and the vault agent loop with its audit
   log of operations.  The document tree store itself (the Obsidian
   vault API) is an external host collaborator; it is modelled from the
   interface the specification assigns to it. -/

namespace AICopilot

/-- Kind of an audit-log entry, from the AgentOperation TypeScript
interface: read, write, create, rename or delete. -/
inductive OpType where
  | read
  | write
  | create
  | rename
  | delete
deriving DecidableEq, Repr

/-- One audit-log entry, from the AgentOperation TypeScript interface:
a kind, a path, and for renames the destination path. -/
structure AgentOperation where
  type : OpType
  path : String
  newPath : Option String := none
deriving DecidableEq, Repr

/-- Arguments of one tool invocation.  The source reads dynamically
typed fields from the tool input object; each field here carries the
default the dispatch code applies when the field is missing (the
JavaScript falsy defaults such as toolInput.content or an empty
string). -/
structure ToolInput where
  path : String := ""
  content : String := ""
  oldPath : String := ""
  newPath : String := ""
  query : String := ""
  folder : Option String := none
  pattern : Option String := none
  includeMetadata : Bool := false
  caseSensitive : Bool := false
  maxResults : Option Nat := none
  includeFrontmatter : Bool := true
  includeLinks : Bool := false
  includeTags : Bool := false
deriving DecidableEq, Repr

/-- A content block of a conversation turn: a text block, a tool-use
block emitted by the completion service, or a tool-result block sent
back by the loop (carrying the correlation identifier and the error
flag set by the catch handler). -/
inductive Block where
  | text (s : String)
  | toolUse (id : String) (name : String) (input : ToolInput)
  | toolResult (tuId : String) (content : String) (isErr : Bool)
deriving DecidableEq, Repr

/-- One conversation turn: a role string and content blocks. -/
structure Message where
  role : String
  content : List Block
deriving DecidableEq, Repr

/-- A completion-service response: content blocks plus the stop
reason string. -/
structure Response where
  content : List Block
  stopReason : String
deriving DecidableEq, Repr

/-- Whether a character is JavaScript whitespace (the forms that can
occur in this content model). -/
def isWsChar (c : Char) : Bool :=
  c = ' ' || c = '\t' || c = '\n' || c = '\r'

/-- The JavaScript string split on a one-character separator, on the
character list: an empty string splits to one empty piece. -/
def jsSplitChars (sep : Char) : List Char → List Char → List String
  | [], acc => [String.mk acc.reverse]
  | c :: cs, acc =>
    if c = sep then String.mk acc.reverse :: jsSplitChars sep cs []
    else jsSplitChars sep cs (c :: acc)

/-- The JavaScript string split on a one-character separator. -/
def jsSplit (sep : Char) (s : String) : List String :=
  jsSplitChars sep s.data []

/-- The JavaScript trim: remove leading and trailing whitespace. -/
def jsTrim (s : String) : String :=
  String.mk (((s.data.dropWhile isWsChar).reverse.dropWhile isWsChar).reverse)

/-- Whether the first list is an initial run of the second. -/
def charsStartWith : List Char → List Char → Bool
  | [], _ => true
  | _ :: _, [] => false
  | p :: ps, c :: cs => p = c && charsStartWith ps cs

/-- The JavaScript startsWith on strings. -/
def strStartsWith (s start : String) : Bool :=
  charsStartWith start.data s.data

/-- The JavaScript endsWith on strings. -/
def strEndsWith (s suffixStr : String) : Bool :=
  charsStartWith suffixStr.data.reverse s.data.reverse

/-- The JavaScript substring from a character index to the end. -/
def strDrop (n : Nat) (s : String) : String :=
  String.mk (s.data.drop n)

/-- The JavaScript substring of the first n characters. -/
def strTake (n : Nat) (s : String) : String :=
  String.mk (s.data.take n)

/-- Remove the last n characters of a string. -/
def strDropRight (n : Nat) (s : String) : String :=
  String.mk (s.data.take (s.data.length - n))

/-- The JavaScript toLowerCase restricted to ASCII letters. -/
def strLower (s : String) : String :=
  String.mk (s.data.map Char.toLower)

/-- Whether the second character run occurs inside the first (the
JavaScript includes). -/
def charsContain : List Char → List Char → Bool
  | hay, need =>
    if charsStartWith need hay then true
    else
      match hay with
      | [] => false
      | _ :: rest => charsContain rest need

/-- The JavaScript array join with a separator string. -/
def joinWith (sep : String) : List String → String
  | [] => ""
  | [x] => x
  | x :: xs => x ++ sep ++ joinWith sep xs

/-- Modelled from the spec: the Document Tree Store is the addressable
collection of documents (path, body) plus directory nodes.  A path
denotes at most one entry; lookups return the first match. -/
structure Vault where
  files : List (String × String)
  folders : List String
deriving DecidableEq, Repr

/-- Lookup of a document body by path (first match). -/
def lookupFile : List (String × String) → String → Option String
  | [], _ => none
  | (q, d) :: rest, p => if q = p then some d else lookupFile rest p

/-- Body of the document at a path, if any. -/
def findFile (v : Vault) (p : String) : Option String :=
  lookupFile v.files p

/-- Whether a document exists at the path (the TFile instance check). -/
def isFile (v : Vault) (p : String) : Bool :=
  (findFile v p).isSome

/-- Whether a directory node exists at the path. -/
def isFolder (v : Vault) (p : String) : Bool :=
  v.folders.contains p

/-- Whether getAbstractFileByPath returns anything at the path: a
document or a directory node. -/
def abstractExists (v : Vault) (p : String) : Bool :=
  isFile v p || isFolder v p

/-- The filename of a path, its last slash-separated segment
(file.name in the source). -/
def fileName (p : String) : String :=
  (jsSplit '/' p).getLastD ""

/-- Drop a trailing ".md" from a filename, from the source expression
filename.replace of the dot-md-at-end pattern with the empty string. -/
def stripMdExt (s : String) : String :=
  if strEndsWith s ".md" then strDropRight 3 s else s

/-- The heading test applied by stripDuplicateHeading to one line:
after trimming, the line starts with a level-1 heading marker and the
rest of the line, trimmed, equals the base filename. -/
def lineMatches (base l : String) : Bool :=
  strStartsWith (jsTrim l) "# " && decide (jsTrim (strDrop 2 (jsTrim l)) = base)

/-- Core of stripDuplicateHeading as a scan over the split lines:
skip blank lines; at the first non-blank line, if it is the duplicate
heading return the remaining lines with that line spliced out, else
signal no change (none).  Mirrors the for loop with continue and
break in the source. -/
def stripLines (base : String) : List String → Option (List String)
  | [] => none
  | l :: ls =>
    if jsTrim l = "" then (stripLines base ls).map (fun r => l :: r)
    else if lineMatches base l then some ls
    else none

/-- The heading-deduplication filter stripDuplicateHeading: remove the
first non-blank line when it is a level-1 heading restating the
filename without extension, else return the content unchanged. -/
def stripDuplicateHeading (content filename : String) : String :=
  match stripLines (stripMdExt filename) (jsSplit '\n' content) with
  | some ls2 => joinWith "\n" ls2
  | none => content

/-- The first line whose trimmed form is non-empty, if any.  Used to
state the specification reading of the filter. -/
def firstNonBlank : List String → Option String
  | [] => none
  | l :: ls => if jsTrim l = "" then firstNonBlank ls else some l

/-- Follows the spec: the proposed content begins (ignoring blank
lines) with a level-1 heading whose text equals the identifier. -/
def specHeadingMatches (content base : String) : Bool :=
  match firstNonBlank (jsSplit '\n' content) with
  | none => false
  | some l => lineMatches base l

/-- Tool handler handleReadFile: body of the document, or a
file-not-found error. -/
def handleReadFile (v : Vault) (path : String) : Except String String :=
  match findFile v path with
  | some content => .ok content
  | none => .error ("File not found: " ++ path)

/-- Replace the body of every entry at the given path. -/
def setFiles : List (String × String) → String → String → List (String × String)
  | [], _, _ => []
  | (q, d) :: rest, p, c =>
    if q = p then (p, c) :: setFiles rest p c else (q, d) :: setFiles rest p c

/-- Tool handler handleWriteFile: requires an existing document,
passes the content through the heading-deduplication filter keyed by
the filename, then overwrites the body. -/
def handleWriteFile (v : Vault) (path content : String) : Except String (Vault × String) :=
  match findFile v path with
  | none => .error ("File not found: " ++ path ++ ". Use create_file to create a new file.")
  | some _ =>
    let cleaned := stripDuplicateHeading content (fileName path)
    .ok ({ v with files := setFiles v.files path cleaned }, "Successfully updated " ++ path)

/-- Walk of createFolderRecursive: extend the current path one segment
at a time, creating each directory node that does not exist. -/
def createFolderGo (v : Vault) (currentPath : String) : List String → Vault
  | [] => v
  | part :: rest =>
    let cp := if currentPath = "" then part else currentPath ++ "/" ++ part
    let v2 := if abstractExists v cp then v else { v with folders := v.folders ++ [cp] }
    createFolderGo v2 cp rest

/-- Helper createFolderRecursive from the source. -/
def createFolderRecursive (v : Vault) (path : String) : Vault :=
  createFolderGo v "" (jsSplit '/' path)

/-- Tool handler handleCreateFile: fails when anything already exists
at the path; otherwise materializes missing ancestor directories and
creates the document. -/
def handleCreateFile (v : Vault) (path content : String) : Except String (Vault × String) :=
  if abstractExists v path then
    .error ("File already exists: " ++ path ++ ". Use write_file to update it.")
  else
    let pathParts := jsSplit '/' path
    let folderParts := pathParts.dropLast
    let v1 :=
      if folderParts.length > 0 then
        let folderPath := joinWith "/" folderParts
        if abstractExists v folderPath then v else createFolderRecursive v folderPath
      else v
    .ok ({ v1 with files := v1.files ++ [(path, content)] }, "Successfully created " ++ path)

/-- Move every entry at the old path to the new path. -/
def renameFiles : List (String × String) → String → String → List (String × String)
  | [], _, _ => []
  | (q, d) :: rest, oldPath, newPath =>
    if q = oldPath then (newPath, d) :: renameFiles rest oldPath newPath
    else (q, d) :: renameFiles rest oldPath newPath

/-- Modelled from the spec: the host renameWithLinkRewrite collaborator
moves the entry at the old path to the new path (rewriting of links
inside other documents is a host side effect outside the tree model). -/
def renameVault (v : Vault) (oldPath newPath : String) : Vault :=
  if isFile v oldPath then
    { v with files := renameFiles v.files oldPath newPath }
  else
    { v with folders := v.folders.map (fun q => if q = oldPath then newPath else q) }

/-- Tool handler handleRenameFile: fails when the old path is absent
or the destination is occupied, else moves the document. -/
def handleRenameFile (v : Vault) (oldPath newPath : String) : Except String (Vault × String) :=
  if !(abstractExists v oldPath) then
    .error ("File not found: " ++ oldPath)
  else if abstractExists v newPath then
    .error ("Destination already exists: " ++ newPath)
  else
    .ok (renameVault v oldPath newPath, "Successfully renamed " ++ oldPath ++ " to " ++ newPath)

/-- Remove the entry at a path from the tree (the host trash
collaborator; reversibility of the trash is outside the tree model). -/
def removePath (v : Vault) (path : String) : Vault :=
  { files := v.files.filter (fun e => !(decide (e.1 = path))),
    folders := v.folders.filter (fun q => !(decide (q = path))) }

/-- Tool handler handleDeleteFile: fails when nothing exists at the
path, else moves the entry to the trash. -/
def handleDeleteFile (v : Vault) (path : String) : Except String (Vault × String) :=
  if abstractExists v path then
    .ok (removePath v path, "Successfully deleted " ++ path)
  else
    .error ("File not found: " ++ path)

/-- Modelled from the spec: the host prepareSimpleSearch collaborator.
A query matches a string when every space-separated keyword of the
query occurs in it as a substring. -/
def simpleSearchMatch (query s : String) : Bool :=
  ((jsSplit ' ' query).filter (fun w => !(decide (w = "")))).all
    (fun w => charsContain s.data w.data)

/-- Normalize a folder argument to end with a separator. -/
def normFolder (f : String) : String :=
  if strEndsWith f "/" then f else f ++ "/"

/-- One entry of a list_files result. -/
structure FileEntry where
  path : String
  name : String
deriving DecidableEq, Repr

/-- Result structure of list_files: files plus count.  Size and
timestamp fields come from host file stats and are outside the tree
model. -/
structure ListResult where
  files : List FileEntry
  count : Nat
deriving DecidableEq, Repr

/-- Tool handler handleListFiles: all documents, optionally filtered
by folder and by a fuzzy name pattern (both lowercased). -/
def handleListFiles (v : Vault) (folder : Option String) (pat : Option String) : ListResult :=
  let files0 : List (String × String) := v.files
  let files1 : List (String × String) :=
    match folder with
    | some f => files0.filter (fun e => strStartsWith e.1 (normFolder f))
    | none => files0
  let files2 : List (String × String) :=
    match pat with
    | some p => files1.filter (fun e => simpleSearchMatch (strLower p) (strLower e.1))
    | none => files1
  { files := files2.map (fun e => ⟨e.1, fileName e.1⟩), count := files2.length }

/-- One matching line excerpt of a search result. -/
structure SearchMatch where
  line : Nat
  content : String
deriving DecidableEq, Repr

/-- Per-document search result: path and up to five line excerpts
(the matches field of the source structure). -/
structure SearchFileResult where
  path : String
  matchesList : List SearchMatch
deriving DecidableEq, Repr

/-- Result structure of search_files. -/
structure SearchResult where
  results : List SearchFileResult
  total_files_searched : Nat
  files_with_matches : Nat
  truncated : Bool
deriving DecidableEq, Repr

/-- Collect matching line excerpts for one document: line numbers are
one-based, each excerpt is cut to 200 characters, and collection stops
once five excerpts have been gathered. -/
def collectMatches (matchFn : String → Bool) (cs : Bool) : Nat → List String → List SearchMatch → List SearchMatch
  | _, [], acc => acc
  | i, l :: ls, acc =>
    let lc := if cs then l else strLower l
    if matchFn lc then
      let acc1 := acc ++ [⟨i + 1, strTake 200 l⟩]
      if acc1.length ≥ 5 then acc1 else collectMatches matchFn cs (i + 1) ls acc1
    else collectMatches matchFn cs (i + 1) ls acc

/-- The scan loop of handleSearchFiles: stops before examining another
document once maxResults documents have matched; counts every document
actually examined. -/
def searchLoop (matchFn : String → Bool) (cs : Bool) (maxResults : Nat) :
    List (String × String) → List SearchFileResult → Nat → List SearchFileResult × Nat
  | [], results, searched => (results, searched)
  | (p, content) :: fs, results, searched =>
    if results.length ≥ maxResults then (results, searched)
    else
      let sc := if cs then content else strLower content
      if matchFn sc then
        searchLoop matchFn cs maxResults fs
          (results ++ [⟨p, collectMatches matchFn cs 0 (jsSplit '\n' content) []⟩])
          (searched + 1)
      else
        searchLoop matchFn cs maxResults fs results (searched + 1)

/-- Tool handler handleSearchFiles: scan documents (optionally folder
scoped) for content matching the query, stopping once maxResults
documents matched; truncated records whether the match count reached
maxResults.  The source serializes this structure to JSON on return. -/
def handleSearchFiles (v : Vault) (query : String) (folder : Option String)
    (cs : Bool) (maxResults : Nat) : SearchResult :=
  let sq := if cs then query else strLower query
  let matchFn := simpleSearchMatch sq
  let files :=
    match folder with
    | some f => v.files.filter (fun e => strStartsWith e.1 (normFolder f))
    | none => v.files
  let rs := searchLoop matchFn cs maxResults files [] 0
  { results := rs.1,
    total_files_searched := rs.2,
    files_with_matches := rs.1.length,
    truncated := decide (rs.1.length ≥ maxResults) }

/-- Wrap a string in JSON quotes. -/
def quoteStr (s : String) : String := "\"" ++ s ++ "\""

/-- Serialize one list_files entry. -/
def encodeFileEntry (e : FileEntry) : String :=
  "\x7b\"path\":" ++ quoteStr e.path ++ ",\"name\":" ++ quoteStr e.name ++ "\x7d"

/-- Serialize a list_files result. -/
def encodeListResult (r : ListResult) : String :=
  "\x7b\"files\":[" ++ joinWith "," (r.files.map encodeFileEntry) ++
    "],\"count\":" ++ toString r.count ++ "\x7d"

/-- Serialize one search excerpt. -/
def encodeSearchMatch (m : SearchMatch) : String :=
  "\x7b\"line\":" ++ toString m.line ++ ",\"content\":" ++ quoteStr m.content ++ "\x7d"

/-- Serialize one per-document search result. -/
def encodeSearchFileResult (r : SearchFileResult) : String :=
  "\x7b\"path\":" ++ quoteStr r.path ++ ",\"matches\":[" ++
    joinWith "," (r.matchesList.map encodeSearchMatch) ++ "]\x7d"

/-- Serialize a search_files result. -/
def encodeSearchResult (r : SearchResult) : String :=
  "\x7b\"results\":[" ++ joinWith "," (r.results.map encodeSearchFileResult) ++
    "],\"total_files_searched\":" ++ toString r.total_files_searched ++
    ",\"files_with_matches\":" ++ toString r.files_with_matches ++
    ",\"truncated\":" ++ (if r.truncated then "true" else "false") ++ "\x7d"

/-- The default applied to the max_results argument: missing or zero
(JavaScript falsy) becomes 50. -/
def defaultMaxResults : Option Nat → Nat
  | none => 50
  | some 0 => 50
  | some n => n

/-- Tool handler handleGetFileMetadata: fails when no document exists
at the path; the returned record carries path and name (size,
timestamps, frontmatter, links and tags come from host file stats and
the host metadata cache, outside the tree model). -/
def handleGetFileMetadata (v : Vault) (path : String) : Except String String :=
  match findFile v path with
  | none => .error ("File not found: " ++ path)
  | some _ =>
    .ok ("\x7b\"path\":" ++ quoteStr path ++ ",\"name\":" ++ quoteStr (fileName path) ++ "\x7d")

/-- Outcome of dispatching one tool invocation: the tree afterwards,
the tool-result block sent back to the service, and the audit-log
record appended (if any). -/
structure DispatchOut where
  vault : Vault
  result : Block
  record : Option AgentOperation
deriving DecidableEq, Repr

/-- The read_file case of the dispatch switch.  The audit-log push
follows the handler call inside the try, so it only happens when the
handler did not throw; a thrown error becomes an error tool result. -/
def dispatchRead (v : Vault) (tuId : String) (inp : ToolInput) : DispatchOut :=
  match handleReadFile v inp.path with
  | .ok r => ⟨v, .toolResult tuId r false, some ⟨.read, inp.path, none⟩⟩
  | .error e => ⟨v, .toolResult tuId ("Error: " ++ e) true, none⟩

/-- The write_file case of the dispatch switch. -/
def dispatchWrite (v : Vault) (tuId : String) (inp : ToolInput) : DispatchOut :=
  match handleWriteFile v inp.path inp.content with
  | .ok (v2, r) => ⟨v2, .toolResult tuId r false, some ⟨.write, inp.path, none⟩⟩
  | .error e => ⟨v, .toolResult tuId ("Error: " ++ e) true, none⟩

/-- The create_file case of the dispatch switch. -/
def dispatchCreate (v : Vault) (tuId : String) (inp : ToolInput) : DispatchOut :=
  match handleCreateFile v inp.path inp.content with
  | .ok (v2, r) => ⟨v2, .toolResult tuId r false, some ⟨.create, inp.path, none⟩⟩
  | .error e => ⟨v, .toolResult tuId ("Error: " ++ e) true, none⟩

/-- The rename_file case of the dispatch switch. -/
def dispatchRename (v : Vault) (tuId : String) (inp : ToolInput) : DispatchOut :=
  match handleRenameFile v inp.oldPath inp.newPath with
  | .ok (v2, r) => ⟨v2, .toolResult tuId r false, some ⟨.rename, inp.oldPath, some inp.newPath⟩⟩
  | .error e => ⟨v, .toolResult tuId ("Error: " ++ e) true, none⟩

/-- The delete_file case of the dispatch switch.  Note the switch
carries this case whether or not the delete capability flag is on;
the flag only controls the tool registry. -/
def dispatchDelete (v : Vault) (tuId : String) (inp : ToolInput) : DispatchOut :=
  match handleDeleteFile v inp.path with
  | .ok (v2, r) => ⟨v2, .toolResult tuId r false, some ⟨.delete, inp.path, none⟩⟩
  | .error e => ⟨v, .toolResult tuId ("Error: " ++ e) true, none⟩

/-- The get_file_metadata case of the dispatch switch; never recorded
in the audit log. -/
def dispatchMetadata (v : Vault) (tuId : String) (inp : ToolInput) : DispatchOut :=
  match handleGetFileMetadata v inp.path with
  | .ok r => ⟨v, .toolResult tuId r false, none⟩
  | .error e => ⟨v, .toolResult tuId ("Error: " ++ e) true, none⟩

/-- The dispatch switch of the agent loop: route one tool invocation
by name to its handler.  The default case produces a JSON error
payload for an unknown tool name (without the error flag, as in the
source).  list, search and metadata invocations append no audit
record. -/
def dispatchTool (v : Vault) (tuId name : String) (inp : ToolInput) : DispatchOut :=
  if name = "read_file" then dispatchRead v tuId inp
  else if name = "write_file" then dispatchWrite v tuId inp
  else if name = "create_file" then dispatchCreate v tuId inp
  else if name = "rename_file" then dispatchRename v tuId inp
  else if name = "delete_file" then dispatchDelete v tuId inp
  else if name = "list_files" then
    ⟨v, .toolResult tuId (encodeListResult (handleListFiles v inp.folder inp.pattern)) false, none⟩
  else if name = "search_files" then
    ⟨v, .toolResult tuId
      (encodeSearchResult (handleSearchFiles v inp.query inp.folder inp.caseSensitive
        (defaultMaxResults inp.maxResults))) false, none⟩
  else if name = "get_file_metadata" then dispatchMetadata v tuId inp
  else ⟨v, .toolResult tuId ("\x7b\"error\":\"Unknown tool: " ++ name ++ "\"\x7d") false, none⟩

/-- The error flag of a tool-result block. -/
def Block.isErrFlag : Block → Bool
  | .toolResult _ _ e => e
  | _ => false

/-- The audit record the claim expects for a primitive tool name. -/
def expectedRecord (name : String) (inp : ToolInput) : Option AgentOperation :=
  if name = "read_file" then some ⟨.read, inp.path, none⟩
  else if name = "write_file" then some ⟨.write, inp.path, none⟩
  else if name = "create_file" then some ⟨.create, inp.path, none⟩
  else if name = "rename_file" then some ⟨.rename, inp.oldPath, some inp.newPath⟩
  else if name = "delete_file" then some ⟨.delete, inp.path, none⟩
  else none

/-- Extraction of the tool-use blocks of a response, in order. -/
def toolUsesOf (blocks : List Block) : List (String × String × ToolInput) :=
  blocks.filterMap (fun b =>
    match b with
    | .toolUse id name input => some (id, name, input)
    | _ => none)

/-- The per-round dispatch loop: process each tool use in order,
threading the tree, collecting the tool results in invocation order
and the audit records of the recorded invocations. -/
def runToolUses (v : Vault) : List (String × String × ToolInput) → Vault × List Block × List AgentOperation
  | [] => (v, [], [])
  | (id, name, inp) :: rest =>
    let d := dispatchTool v id name inp
    let (v2, bs, ops) := runToolUses d.vault rest
    (v2, d.result :: bs, d.record.toList ++ ops)

/-- State carried across rounds of the agent loop: the tree, the
conversation, the audit log, and the number of service rounds
executed (iterationCount in the source). -/
structure AgentState where
  vault : Vault
  messages : List Message
  operations : List AgentOperation
  rounds : Nat
deriving Repr

/-- The iteration cap of the agent loop (maxIterations in the
source). -/
def maxIterations : Nat := 50

/-- The tool registry for one run: the delete_file entry is present
only when the delete capability flag is enabled; two web capabilities
resolve service-side. -/
def vaultAgentToolNames (enableDeleteFiles : Bool) : List String :=
  ["read_file", "write_file", "create_file", "rename_file"] ++
  (if enableDeleteFiles then ["delete_file"] else []) ++
  ["list_files", "search_files", "get_file_metadata", "web_fetch", "web_search"]

/-- The agent loop of processVaultAgent, with the remaining iteration
budget as fuel.  Each round submits the conversation and the registry
to the completion service (a service error aborts the run), appends
the reply as an assistant turn, stops when the reply holds no tool
uses or signals end_turn, and otherwise dispatches every tool use and
appends the collected tool results as a user turn. -/
def agentLoop (service : List String → List Message → Except String Response)
    (toolNames : List String) : Nat → AgentState → Except String AgentState
  | 0, st => .ok st
  | fuel + 1, st =>
    match service toolNames st.messages with
    | .error e => .error e
    | .ok resp =>
      if (toolUsesOf resp.content).isEmpty || resp.stopReason = "end_turn" then
        .ok { st with
              messages := st.messages ++ [⟨"assistant", resp.content⟩],
              rounds := st.rounds + 1 }
      else
        agentLoop service toolNames fuel
          { vault := (runToolUses st.vault (toolUsesOf resp.content)).1,
            messages := st.messages ++ [⟨"assistant", resp.content⟩] ++
              [⟨"user", (runToolUses st.vault (toolUsesOf resp.content)).2.1⟩],
            operations := st.operations ++ (runToolUses st.vault (toolUsesOf resp.content)).2.2,
            rounds := st.rounds + 1 }

/-- Entry point processVaultAgent: seed the conversation with the
date-stamped instruction (optionally prefixed with current-note
context), run the loop under the iteration cap, and return the final
state; the source returns its operations field to the caller.  A
service transport failure propagates wrapped as a fatal error. -/
def processVaultAgent (service : List String → List Message → Except String Response)
    (enableDeleteFiles : Bool) (v : Vault) (dateTimeString timeZone userPrompt : String)
    (currentNote : Option (String × String)) : Except String AgentState :=
  let initialMessage :=
    "Current date and time: " ++ dateTimeString ++ " (" ++ timeZone ++ ")\n\n" ++
    (match currentNote with
     | some (p, c) =>
       "Current note: " ++ p ++ "\n\nCurrent note content:\n" ++ c ++
         "\n\nUser request: " ++ userPrompt
     | none => "User request: " ++ userPrompt)
  let st0 : AgentState :=
    { vault := v, messages := [⟨"user", [.text initialMessage]⟩], operations := [], rounds := 0 }
  match agentLoop service (vaultAgentToolNames enableDeleteFiles) maxIterations st0 with
  | .ok st => .ok st
  | .error e => .error ("Failed to process vault agent: " ++ e)

/-- The audit log of a finished run (empty on a fatal error). -/
def opsOfE : Except String AgentState → List AgentOperation
  | .ok st => st.operations
  | .error _ => []

/-- The tree of a finished run (empty on a fatal error). -/
def vaultOfE : Except String AgentState → Vault
  | .ok st => st.vault
  | .error _ => ⟨[], []⟩

/-- The number of service rounds of a finished run (zero on a fatal
error). -/
def roundsOfE : Except String AgentState → Nat
  | .ok st => st.rounds
  | .error _ => 0

/-- The tree after one write dispatch (on a handler error the caller
keeps the previous tree). -/
def writtenVault (v : Vault) (p c : String) : Vault :=
  match handleWriteFile v p c with
  | .ok (v2, _) => v2
  | .error _ => v

/-- The text payloads of the content blocks of a response, in order. -/
def textSegments (resp : Response) : List String :=
  resp.content.filterMap (fun b =>
    match b with
    | .text s => some s
    | _ => none)

/-- The single-note rewrite wrapper processWithAI applied to the final
service response: gather the text blocks, fail when there are none,
else concatenate their texts with no separator; the catch handler
wraps the failure description. -/
def processWithAI (resp : Response) : Except String String :=
  let textBlocks := resp.content.filter (fun b =>
    match b with
    | .text _ => true
    | _ => false)
  if textBlocks.length = 0 then
    .error "Failed to process with AI: No text content in AI response"
  else
    .ok (String.join (textBlocks.map (fun b =>
      match b with
      | .text s => s
      | _ => "")))

/-- An empty document tree. -/
def emptyVault : Vault := ⟨[], []⟩

/-- A tree holding one document a.md. -/
def vaultA : Vault := ⟨[("a.md", "hi")], []⟩

/-- A tree with two documents whose bodies contain foo. -/
def twoFooVault : Vault := ⟨[("a.md", "some foo here"), ("b.md", "more foo there")], []⟩

/-- Scripted completion service for the failing-read scenario of the
spec: request a read of missing.md, then (upon the failure) a create
of missing.md with body x, then stop. -/
def scriptedC1 (_ : List String) (msgs : List Message) : Except String Response :=
  match (msgs.filter (fun m => m.role = "assistant")).length with
  | 0 => .ok ⟨[.toolUse "tu1" "read_file" { path := "missing.md" }], "tool_use"⟩
  | 1 => .ok ⟨[.toolUse "tu2" "create_file" { path := "missing.md", content := "x" }], "tool_use"⟩
  | _ => .ok ⟨[.text "done"], "end_turn"⟩

/-- Scripted completion service for the delete-gating scenario:
request a delete of a.md, then stop. -/
def scriptedC2 (_ : List String) (msgs : List Message) : Except String Response :=
  match (msgs.filter (fun m => m.role = "assistant")).length with
  | 0 => .ok ⟨[.toolUse "td1" "delete_file" { path := "a.md" }], "tool_use"⟩
  | _ => .ok ⟨[.text "done"], "end_turn"⟩

/-- A response holding two text segments around a tool use. -/
def respTwoTexts : Response :=
  ⟨[.text "a", .toolUse "w1" "web_search" {}, .text "b"], "end_turn"⟩

/-- A response holding no text segment. -/
def respNoText : Response :=
  ⟨[.toolUse "w1" "web_search" {}], "end_turn"⟩

/-- Overwriting an existing entry makes the lookup return the new
body. -/
theorem lookupFile_setFiles (fs : List (String × String)) (p c : String)
    (h : (lookupFile fs p).isSome = true) :
    lookupFile (setFiles fs p c) p = some c := by
  induction fs with
  | nil => simp [lookupFile] at h
  | cons e rest ih =>
    obtain ⟨q, d⟩ := e
    by_cases hq : q = p
    · subst hq
      simp [setFiles, lookupFile]
    · rw [lookupFile, if_neg hq] at h
      simp only [setFiles, if_neg hq, lookupFile, if_neg hq]
      exact ih h

/-- After a rename the destination path resolves to the body the old
path held, provided nothing occupied the destination. -/
theorem lookupFile_renameFiles_new (fs : List (String × String)) (A B : String)
    (hB : lookupFile fs B = none) :
    lookupFile (renameFiles fs A B) B = lookupFile fs A := by
  induction fs with
  | nil => simp [renameFiles, lookupFile]
  | cons e rest ih =>
    obtain ⟨q, d⟩ := e
    simp only [lookupFile] at hB
    by_cases hqB : q = B
    · simp [hqB] at hB
    · rw [if_neg hqB] at hB
      by_cases hqA : q = A
      · subst hqA
        simp [renameFiles, lookupFile]
      · simp only [renameFiles, if_neg hqA, lookupFile, if_neg hqB, if_neg hqA]
        exact ih hB

/-- After a rename to a different path, the old path no longer
resolves. -/
theorem lookupFile_renameFiles_old (fs : List (String × String)) (A B : String)
    (hAB : A ≠ B) :
    lookupFile (renameFiles fs A B) A = none := by
  induction fs with
  | nil => simp [renameFiles, lookupFile]
  | cons e rest ih =>
    obtain ⟨q, d⟩ := e
    by_cases hqA : q = A
    · subst hqA
      simp only [renameFiles, if_pos rfl, lookupFile, if_neg (Ne.symm hAB)]
      exact ih
    · simp only [renameFiles, if_neg hqA, lookupFile, if_neg hqA]
      exact ih

/-- Removing a path removes every entry the lookup could return. -/
theorem lookupFile_removePath (fs : List (String × String)) (p : String) :
    lookupFile (fs.filter (fun e => !(decide (e.1 = p)))) p = none := by
  induction fs with
  | nil => simp [lookupFile]
  | cons e rest ih =>
    obtain ⟨q, d⟩ := e
    by_cases hq : q = p
    · simpa [List.filter_cons, hq] using ih
    · simpa [List.filter_cons, hq, lookupFile] using ih

/-- Characterization of a successful heading strip: the scan removes
exactly the first non-blank line, which satisfies the heading test;
every line before it is blank and every other line is kept verbatim. -/
theorem stripLines_some (base : String) :
    ∀ (ls ls2 : List String), stripLines base ls = some ls2 →
    ∃ i li, ls[i]? = some li ∧ (∀ x ∈ ls.take i, jsTrim x = "") ∧ jsTrim li ≠ "" ∧
      lineMatches base li = true ∧ ls2 = ls.eraseIdx i := by
  intro ls
  induction ls with
  | nil => intro ls2 h; simp [stripLines] at h
  | cons l rest ih =>
    intro ls2 h
    by_cases hb : jsTrim l = ""
    · simp only [stripLines, if_pos hb, Option.map_eq_some'] at h
      obtain ⟨a, ha, hls2⟩ := h
      obtain ⟨i, li, h1, h2, h3, h4, h5⟩ := ih a ha
      refine ⟨i + 1, li, by simpa using h1, ?_, h3, h4, ?_⟩
      · intro x hx
        rw [List.take_succ_cons] at hx
        rcases List.mem_cons.mp hx with rfl | hx
        · exact hb
        · exact h2 x hx
      · rw [← hls2, h5, List.eraseIdx_cons_succ]
    · by_cases hm : lineMatches base l
      · simp only [stripLines, if_neg hb, if_pos hm, Option.some_inj] at h
        exact ⟨0, l, by simp, by simp, hb, hm, by simp [← h]⟩
      · simp [stripLines, hb, hm] at h

/-- When the first non-blank line (if any) fails the heading test, the
scan reports no change. -/
theorem stripLines_none_of (base : String) :
    ∀ ls : List String,
    (∀ l, firstNonBlank ls = some l → lineMatches base l = false) →
    stripLines base ls = none := by
  intro ls
  induction ls with
  | nil => intro _; rfl
  | cons l rest ih =>
    intro h
    by_cases hb : jsTrim l = ""
    · have : stripLines base rest = none :=
        ih (fun x hx => h x (by simpa [firstNonBlank, hb] using hx))
      simp [stripLines, hb, this]
    · have := h l (by simp [firstNonBlank, hb])
      simp [stripLines, hb, this]

/-- When the first non-blank line passes the heading test, the scan
strips. -/
theorem stripLines_isSome_of (base : String) :
    ∀ (ls : List String) (l : String), firstNonBlank ls = some l →
    lineMatches base l = true → (stripLines base ls).isSome = true := by
  intro ls
  induction ls with
  | nil => intro l h; simp [firstNonBlank] at h
  | cons x rest ih =>
    intro l h hm
    by_cases hb : jsTrim x = ""
    · rw [firstNonBlank, if_pos hb] at h
      have := ih l h hm
      obtain ⟨a, ha⟩ := Option.isSome_iff_exists.mp this
      simp [stripLines, hb, ha]
    · rw [firstNonBlank, if_neg hb] at h
      obtain rfl : x = l := by simpa using h
      simp [stripLines, hb, hm]

/-- The loop never performs more service rounds than its fuel
allows. -/
theorem agentLoop_rounds_le (service : List String → List Message → Except String Response)
    (tn : List String) :
    ∀ (fuel : Nat) (st r : AgentState),
    agentLoop service tn fuel st = .ok r → r.rounds ≤ st.rounds + fuel := by
  intro fuel
  induction fuel with
  | zero =>
    intro st r h
    simp only [agentLoop, Except.ok.injEq] at h
    subst h
    omega
  | succ n ih =>
    intro st r h
    simp only [agentLoop] at h
    cases hs : service tn st.messages with
    | error e => rw [hs] at h; simp at h
    | ok resp =>
      rw [hs] at h
      simp only [] at h
      split at h
      · simp only [Except.ok.injEq] at h
        subst h
        simp only []
        omega
      · have := ih _ r h
        simp only [] at this
        omega

/-- The audit log only grows across the loop: the final log extends
the log the loop started from. -/
theorem agentLoop_ops_extend (service : List String → List Message → Except String Response)
    (tn : List String) :
    ∀ (fuel : Nat) (st r : AgentState),
    agentLoop service tn fuel st = .ok r →
    ∃ t, r.operations = st.operations ++ t := by
  intro fuel
  induction fuel with
  | zero =>
    intro st r h
    simp only [agentLoop, Except.ok.injEq] at h
    subst h
    exact ⟨[], by simp⟩
  | succ n ih =>
    intro st r h
    simp only [agentLoop] at h
    cases hs : service tn st.messages with
    | error e => rw [hs] at h; simp at h
    | ok resp =>
      rw [hs] at h
      simp only [] at h
      split at h
      · simp only [Except.ok.injEq] at h
        subst h
        exact ⟨[], by simp⟩
      · obtain ⟨t, ht⟩ := ih _ r h
        simp only [] at ht
        exact ⟨(runToolUses st.vault (toolUsesOf resp.content)).2.2 ++ t,
          by rw [ht, List.append_assoc]⟩

/-- The scan loop of search never accumulates more results than the
cap. -/
theorem searchLoop_len_le (matchFn : String → Bool) (cs : Bool) (maxResults : Nat) :
    ∀ (fs : List (String × String)) (results : List SearchFileResult) (searched : Nat),
    results.length ≤ maxResults →
    (searchLoop matchFn cs maxResults fs results searched).1.length ≤ maxResults := by
  intro fs
  induction fs with
  | nil => intro results searched h; simpa [searchLoop] using h
  | cons f rest ih =>
    obtain ⟨p, content⟩ := f
    intro results searched h
    simp only [searchLoop]
    split
    · exact h
    · next hlt =>
      split <;> split
      all_goals first
        | exact ih _ _ h
        | · refine ih _ _ ?_
            simp only [List.length_append, List.length_cons, List.length_nil]
            omega

/-- Mapping the text extraction over the text-block filter of the
rewrite wrapper yields the text segments of the response. -/
theorem filter_text_map (bs : List Block) :
    (bs.filter (fun b =>
      match b with
      | .text _ => true
      | _ => false)).map (fun b =>
      match b with
      | .text s => s
      | _ => "") =
    bs.filterMap (fun b =>
      match b with
      | .text s => some s
      | _ => none) := by
  induction bs with
  | nil => rfl
  | cons b rest ih => cases b <;> simp [List.filter_cons, List.filterMap_cons, ih]

/-- C10: for every content string and identifier, the
heading-deduplication filter either returns the input unchanged, or
returns the input with exactly one whole line deleted, namely its
first non-blank line (every line before it is blank, the deleted line
itself is non-blank, and every remaining line is kept verbatim by the
single eraseIdx). -/
theorem strip_heading_line_removal (c f : String) :
    stripDuplicateHeading c f = c ∨
    ∃ i, (∀ x ∈ (jsSplit '\n' c).take i, jsTrim x = "") ∧
      (∃ li, (jsSplit '\n' c)[i]? = some li ∧ jsTrim li ≠ "") ∧
      stripDuplicateHeading c f = joinWith "\n" ((jsSplit '\n' c).eraseIdx i) := by
  cases h : stripLines (stripMdExt f) (jsSplit '\n' c) with
  | none => left; simp [stripDuplicateHeading, h]
  | some ls2 =>
    right
    obtain ⟨i, li, h1, h2, h3, _, h5⟩ := stripLines_some _ _ _ h
    exact ⟨i, h2, ⟨li, h1, h3⟩, by simp [stripDuplicateHeading, h, h5]⟩

/-- C4: for every existing document at path p and every content c,
write then read returns exactly the heading-deduplication filter
applied to c; the filter removes the first non-blank line when it is
a level-1 heading whose text equals the identifier (the filename
without extension), and otherwise the content is stored completely
unchanged. -/
theorem write_read_roundtrip (v : Vault) (p c : String) (h : isFile v p = true) :
    handleReadFile (writtenVault v p c) p = .ok (stripDuplicateHeading c (fileName p)) ∧
    (specHeadingMatches c (stripMdExt (fileName p)) = false →
      stripDuplicateHeading c (fileName p) = c) ∧
    (specHeadingMatches c (stripMdExt (fileName p)) = true →
      ∃ i li, (jsSplit '\n' c)[i]? = some li ∧
        (∀ x ∈ (jsSplit '\n' c).take i, jsTrim x = "") ∧
        jsTrim li ≠ "" ∧ lineMatches (stripMdExt (fileName p)) li = true ∧
        stripDuplicateHeading c (fileName p) =
          joinWith "\n" ((jsSplit '\n' c).eraseIdx i)) := by
  refine ⟨?_, ?_, ?_⟩
  · cases hf : findFile v p with
    | none => rw [isFile, hf] at h; simp at h
    | some b =>
      have hset : lookupFile (setFiles v.files p (stripDuplicateHeading c (fileName p))) p =
          some (stripDuplicateHeading c (fileName p)) := by
        apply lookupFile_setFiles
        rw [findFile] at hf
        simp [hf]
      simp only [writtenVault, handleWriteFile, hf]
      simp only [handleReadFile, findFile, hset]
  · intro hs
    have hnone : stripLines (stripMdExt (fileName p)) (jsSplit '\n' c) = none := by
      apply stripLines_none_of
      intro l hl
      rw [specHeadingMatches, hl] at hs
      exact hs
    simp [stripDuplicateHeading, hnone]
  · intro hs
    cases hfb : firstNonBlank (jsSplit '\n' c) with
    | none => rw [specHeadingMatches, hfb] at hs; simp at hs
    | some l =>
      rw [specHeadingMatches, hfb] at hs
      have hsome := stripLines_isSome_of (stripMdExt (fileName p)) _ l hfb hs
      obtain ⟨ls2, hls2⟩ := Option.isSome_iff_exists.mp hsome
      obtain ⟨i, li, h1, h2, h3, h4, h5⟩ := stripLines_some _ _ _ hls2
      exact ⟨i, li, h1, h2, h3, h4, by simp [stripDuplicateHeading, hls2, h5]⟩

/-- Witness for C4 at a concrete tree and content whose first line
duplicates the heading. -/
theorem write_read_roundtrip_witness :
    handleReadFile (writtenVault vaultA "a.md" "# a\nbody") "a.md" =
      .ok (stripDuplicateHeading "# a\nbody" (fileName "a.md")) ∧
    (specHeadingMatches "# a\nbody" (stripMdExt (fileName "a.md")) = false →
      stripDuplicateHeading "# a\nbody" (fileName "a.md") = "# a\nbody") ∧
    (specHeadingMatches "# a\nbody" (stripMdExt (fileName "a.md")) = true →
      ∃ i li, (jsSplit '\n' "# a\nbody")[i]? = some li ∧
        (∀ x ∈ (jsSplit '\n' "# a\nbody").take i, jsTrim x = "") ∧
        jsTrim li ≠ "" ∧ lineMatches (stripMdExt (fileName "a.md")) li = true ∧
        stripDuplicateHeading "# a\nbody" (fileName "a.md") =
          joinWith "\n" ((jsSplit '\n' "# a\nbody").eraseIdx i)) :=
  write_read_roundtrip vaultA "a.md" "# a\nbody" (by decide)

/-- C8: create on a path holding a document always fails with the
already-exists error, and the dispatch leaves the tree (the existing
document included) completely unchanged. -/
theorem create_existing_fails (v : Vault) (tuId : String) (inp : ToolInput)
    (h : isFile v inp.path = true) :
    handleCreateFile v inp.path inp.content =
      .error ("File already exists: " ++ inp.path ++ ". Use write_file to update it.") ∧
    (dispatchTool v tuId "create_file" inp).vault = v := by
  have hab : abstractExists v inp.path = true := by simp [abstractExists, h]
  have herr : handleCreateFile v inp.path inp.content =
      .error ("File already exists: " ++ inp.path ++ ". Use write_file to update it.") := by
    simp [handleCreateFile, hab]
  refine ⟨herr, ?_⟩
  have hd : dispatchTool v tuId "create_file" inp = dispatchCreate v tuId inp := rfl
  rw [hd]
  simp [dispatchCreate, herr]

/-- Witness for C8 at a concrete occupied path. -/
theorem create_existing_fails_witness :
    handleCreateFile vaultA "a.md" "new" =
      .error ("File already exists: " ++ "a.md" ++ ". Use write_file to update it.") ∧
    (dispatchTool vaultA "t1" "create_file" { path := "a.md", content := "new" }).vault =
      vaultA :=
  create_existing_fails vaultA "t1" { path := "a.md", content := "new" } (by decide)

/-- C9: write on a path holding no document always fails with the
not-found error, and the dispatch leaves the tree unchanged (no
document is created). -/
theorem write_missing_fails (v : Vault) (tuId : String) (inp : ToolInput)
    (h : isFile v inp.path = false) :
    handleWriteFile v inp.path inp.content =
      .error ("File not found: " ++ inp.path ++ ". Use create_file to create a new file.") ∧
    (dispatchTool v tuId "write_file" inp).vault = v := by
  have hf : findFile v inp.path = none := by
    cases hfp : findFile v inp.path with
    | none => rfl
    | some b => rw [isFile, hfp] at h; simp at h
  have herr : handleWriteFile v inp.path inp.content =
      .error ("File not found: " ++ inp.path ++ ". Use create_file to create a new file.") := by
    simp [handleWriteFile, hf]
  refine ⟨herr, ?_⟩
  have hd : dispatchTool v tuId "write_file" inp = dispatchWrite v tuId inp := rfl
  rw [hd]
  simp [dispatchWrite, herr]

/-- Witness for C9 at a concrete missing path. -/
theorem write_missing_fails_witness :
    handleWriteFile emptyVault "nope.md" "text" =
      .error ("File not found: " ++ "nope.md" ++ ". Use create_file to create a new file.") ∧
    (dispatchTool emptyVault "t1" "write_file" { path := "nope.md", content := "text" }).vault =
      emptyVault :=
  write_missing_fails emptyVault "t1" { path := "nope.md", content := "text" } (by decide)

/-- C7: when document A exists and path B is unoccupied, rename(A, B)
succeeds, read(B) afterwards returns the pre-rename body of A, and
read(A) afterwards fails with the not-found error; rename fails with
the not-found error when A is absent and with the already-exists
error when B is occupied. -/
theorem rename_semantics (v : Vault) (A B : String) :
    (isFile v A = true → abstractExists v B = false →
      handleRenameFile v A B =
        .ok (renameVault v A B, "Successfully renamed " ++ A ++ " to " ++ B) ∧
      findFile (renameVault v A B) B = findFile v A ∧
      handleReadFile (renameVault v A B) A = .error ("File not found: " ++ A)) ∧
    (abstractExists v A = false →
      handleRenameFile v A B = .error ("File not found: " ++ A)) ∧
    (abstractExists v A = true → abstractExists v B = true →
      handleRenameFile v A B = .error ("Destination already exists: " ++ B)) := by
  refine ⟨?_, ?_, ?_⟩
  · intro hA hB
    have hAx : abstractExists v A = true := by simp [abstractExists, hA]
    have hBf : findFile v B = none := by
      cases hfb : findFile v B with
      | none => rfl
      | some b =>
        rw [abstractExists, isFile, hfb] at hB
        simp at hB
    have hAB : A ≠ B := by
      intro hEq
      rw [isFile, hEq, hBf] at hA
      simp at hA
    have hRen : renameVault v A B = { v with files := renameFiles v.files A B } := by
      simp [renameVault, hA]
    refine ⟨by simp [handleRenameFile, hAx, hB], ?_, ?_⟩
    · rw [hRen]
      exact lookupFile_renameFiles_new v.files A B hBf
    · have : findFile (renameVault v A B) A = none := by
        rw [hRen]
        exact lookupFile_renameFiles_old v.files A B hAB
      simp [handleReadFile, this]
  · intro hA
    simp [handleRenameFile, hA]
  · intro hA hB
    simp [handleRenameFile, hA, hB]

/-- Witness for C7 at a concrete one-document tree. -/
theorem rename_semantics_witness :
    handleRenameFile vaultA "a.md" "b.md" =
      .ok (renameVault vaultA "a.md" "b.md",
        "Successfully renamed " ++ "a.md" ++ " to " ++ "b.md") ∧
    findFile (renameVault vaultA "a.md" "b.md") "b.md" = findFile vaultA "a.md" ∧
    handleReadFile (renameVault vaultA "a.md" "b.md") "a.md" =
      .error ("File not found: " ++ "a.md") :=
  (rename_semantics vaultA "a.md" "b.md").1 (by decide) (by decide)

/-- Counterexample to C1: in the scripted run whose read of
missing.md fails before a create of that path succeeds, the final
audit log holds only the create record (the failed read produced no
record, because the log push follows the handler call inside the
try), even though the tree does end with missing.md containing x. -/
theorem failed_read_unrecorded_cex :
    opsOfE (processVaultAgent scriptedC1 false emptyVault "dt" "tz" "req" none) =
      [⟨.create, "missing.md", none⟩] ∧
    ((opsOfE (processVaultAgent scriptedC1 false emptyVault "dt" "tz" "req" none)).filter
      (fun op => decide (op.type = .read))).length = 0 ∧
    findFile (vaultOfE (processVaultAgent scriptedC1 false emptyVault "dt" "tz" "req" none))
      "missing.md" = some "x" :=
  ⟨by decide, by decide, by rfl⟩

/-- C1 amended: a dispatched primitive invocation appends exactly one
audit record when its handler succeeds and none when the handler
throws; the thrown error becomes an error tool result and the tree is
left unchanged, and the loop carries on, so the scripted failing-read
run still ends with the create record and missing.md containing x. -/
theorem opRecord_iff_handler_success (v : Vault) (tuId name : String) (inp : ToolInput)
    (h : name = "read_file" ∨ name = "write_file" ∨ name = "create_file" ∨
      name = "rename_file" ∨ name = "delete_file") :
    ((dispatchTool v tuId name inp).record.isSome ↔
      (dispatchTool v tuId name inp).result.isErrFlag = false) ∧
    ((dispatchTool v tuId name inp).result.isErrFlag = false →
      (dispatchTool v tuId name inp).record = expectedRecord name inp) ∧
    ((dispatchTool v tuId name inp).result.isErrFlag = true →
      (dispatchTool v tuId name inp).vault = v) ∧
    opsOfE (processVaultAgent scriptedC1 false emptyVault "dt" "tz" "req" none) =
      [⟨.create, "missing.md", none⟩] ∧
    findFile (vaultOfE (processVaultAgent scriptedC1 false emptyVault "dt" "tz" "req" none))
      "missing.md" = some "x" := by
  refine ⟨?_, ?_, ?_, by decide, by rfl⟩ <;>
  · rcases h with rfl | rfl | rfl | rfl | rfl
    · have hd : dispatchTool v tuId "read_file" inp = dispatchRead v tuId inp := rfl
      rw [hd]
      cases hr : handleReadFile v inp.path <;>
        simp [dispatchRead, hr, Block.isErrFlag, expectedRecord]
    · have hd : dispatchTool v tuId "write_file" inp = dispatchWrite v tuId inp := rfl
      rw [hd]
      cases hr : handleWriteFile v inp.path inp.content with
      | error e => simp [dispatchWrite, hr, Block.isErrFlag, expectedRecord]
      | ok pr =>
        obtain ⟨v2, r⟩ := pr
        simp [dispatchWrite, hr, Block.isErrFlag, expectedRecord]
    · have hd : dispatchTool v tuId "create_file" inp = dispatchCreate v tuId inp := rfl
      rw [hd]
      cases hr : handleCreateFile v inp.path inp.content with
      | error e => simp [dispatchCreate, hr, Block.isErrFlag, expectedRecord]
      | ok pr =>
        obtain ⟨v2, r⟩ := pr
        simp [dispatchCreate, hr, Block.isErrFlag, expectedRecord]
    · have hd : dispatchTool v tuId "rename_file" inp = dispatchRename v tuId inp := rfl
      rw [hd]
      cases hr : handleRenameFile v inp.oldPath inp.newPath with
      | error e => simp [dispatchRename, hr, Block.isErrFlag, expectedRecord]
      | ok pr =>
        obtain ⟨v2, r⟩ := pr
        simp [dispatchRename, hr, Block.isErrFlag, expectedRecord]
    · have hd : dispatchTool v tuId "delete_file" inp = dispatchDelete v tuId inp := rfl
      rw [hd]
      cases hr : handleDeleteFile v inp.path with
      | error e => simp [dispatchDelete, hr, Block.isErrFlag, expectedRecord]
      | ok pr =>
        obtain ⟨v2, r⟩ := pr
        simp [dispatchDelete, hr, Block.isErrFlag, expectedRecord]

/-- Witness for the amended C1 at a concrete failing read. -/
theorem opRecord_iff_handler_success_witness :
    (((dispatchTool emptyVault "tu1" "read_file" { path := "missing.md" }).record.isSome ↔
      (dispatchTool emptyVault "tu1" "read_file" { path := "missing.md" }).result.isErrFlag =
        false) ∧
    ((dispatchTool emptyVault "tu1" "read_file" { path := "missing.md" }).result.isErrFlag =
        false →
      (dispatchTool emptyVault "tu1" "read_file" { path := "missing.md" }).record =
        expectedRecord "read_file" { path := "missing.md" }) ∧
    ((dispatchTool emptyVault "tu1" "read_file" { path := "missing.md" }).result.isErrFlag =
        true →
      (dispatchTool emptyVault "tu1" "read_file" { path := "missing.md" }).vault =
        emptyVault) ∧
    opsOfE (processVaultAgent scriptedC1 false emptyVault "dt" "tz" "req" none) =
      [⟨.create, "missing.md", none⟩] ∧
    findFile (vaultOfE (processVaultAgent scriptedC1 false emptyVault "dt" "tz" "req" none))
      "missing.md" = some "x") :=
  opRecord_iff_handler_success emptyVault "tu1" "read_file" { path := "missing.md" }
    (Or.inl rfl)

/-- Counterexample to C2: with the delete flag off, the delete entry
is indeed absent from the registry, but a scripted invocation naming
delete_file is still dispatched to the delete handler: the run logs a
delete record, the document a.md is removed from the tree, and the
tool result is the success confirmation, not an unrecognized-tool
failure. -/
theorem delete_dispatch_with_flag_off_cex :
    (vaultAgentToolNames false).contains "delete_file" = false ∧
    opsOfE (processVaultAgent scriptedC2 false vaultA "dt" "tz" "req" none) =
      [⟨.delete, "a.md", none⟩] ∧
    findFile (vaultOfE (processVaultAgent scriptedC2 false vaultA "dt" "tz" "req" none))
      "a.md" = none ∧
    (dispatchTool vaultA "td1" "delete_file" { path := "a.md" }).result =
      .toolResult "td1" "Successfully deleted a.md" false :=
  ⟨by decide, by decide, by rfl, by decide⟩

/-- C2 amended: with the delete flag off the delete_file entry is
absent from the tool registry for that run, but the dispatch switch
still routes an invocation naming delete_file to the delete handler,
which removes the existing document, appends a delete record, and
returns a success confirmation rather than an unrecognized-tool
failure. -/
theorem delete_registry_gating_amended (v : Vault) (tuId : String) (inp : ToolInput)
    (h : isFile v inp.path = true) :
    (vaultAgentToolNames false).contains "delete_file" = false ∧
    isFile (dispatchTool v tuId "delete_file" inp).vault inp.path = false ∧
    (dispatchTool v tuId "delete_file" inp).record = some ⟨.delete, inp.path, none⟩ ∧
    (dispatchTool v tuId "delete_file" inp).result =
      .toolResult tuId ("Successfully deleted " ++ inp.path) false := by
  have hab : abstractExists v inp.path = true := by simp [abstractExists, h]
  have hok : handleDeleteFile v inp.path =
      .ok (removePath v inp.path, "Successfully deleted " ++ inp.path) := by
    simp [handleDeleteFile, hab]
  have hd : dispatchTool v tuId "delete_file" inp = dispatchDelete v tuId inp := rfl
  refine ⟨by decide, ?_, ?_, ?_⟩ <;> rw [hd]
  · simp only [dispatchDelete, hok]
    simp [isFile, findFile, removePath, lookupFile_removePath]
  · simp [dispatchDelete, hok]
  · simp [dispatchDelete, hok]

/-- Witness for the amended C2 at a concrete one-document tree. -/
theorem delete_registry_gating_amended_witness :
    (vaultAgentToolNames false).contains "delete_file" = false ∧
    isFile (dispatchTool vaultA "td1" "delete_file" { path := "a.md" }).vault "a.md" = false ∧
    (dispatchTool vaultA "td1" "delete_file" { path := "a.md" }).record =
      some ⟨.delete, "a.md", none⟩ ∧
    (dispatchTool vaultA "td1" "delete_file" { path := "a.md" }).result =
      .toolResult "td1" ("Successfully deleted " ++ "a.md") false :=
  delete_registry_gating_amended vaultA "td1" { path := "a.md" } (by decide)

/-- C3: the agent loop performs at most the configured maximum number
of rounds (50), and reaching the cap does not discard the audit log:
the loop only ever extends the log it started from, and the run
returns the accumulated log. -/
theorem agent_loop_bounded_rounds
    (service : List String → List Message → Except String Response) (flag : Bool)
    (v : Vault) (dt tz userPrompt : String) (note : Option (String × String)) :
    maxIterations = 50 ∧
    roundsOfE (processVaultAgent service flag v dt tz userPrompt note) ≤ maxIterations ∧
    (∀ (fuel : Nat) (st : AgentState),
      match agentLoop service (vaultAgentToolNames flag) fuel st with
      | .ok r => ∃ t, r.operations = st.operations ++ t
      | .error _ => True) := by
  refine ⟨rfl, ?_, ?_⟩
  · simp only [processVaultAgent]
    cases hl : agentLoop service (vaultAgentToolNames flag) maxIterations
        { vault := v,
          messages := [⟨"user",
            [.text ("Current date and time: " ++ dt ++ " (" ++ tz ++ ")\n\n" ++
              (match note with
               | some (p, c) =>
                 "Current note: " ++ p ++ "\n\nCurrent note content:\n" ++ c ++
                   "\n\nUser request: " ++ userPrompt
               | none => "User request: " ++ userPrompt))]⟩],
          operations := [], rounds := 0 } with
    | error e => simp [hl, roundsOfE]
    | ok st =>
      have := agentLoop_rounds_le service (vaultAgentToolNames flag) maxIterations _ st hl
      simp only [hl, roundsOfE]
      simpa using this
  · intro fuel st
    cases hl : agentLoop service (vaultAgentToolNames flag) fuel st with
    | error e => trivial
    | ok r => exact agentLoop_ops_extend service (vaultAgentToolNames flag) fuel st r hl

/-- C5: the single-note rewrite returns the concatenation of every
text segment of the final response in order with no separator, and it
fails with the empty-response error exactly when the response holds no
text segment. -/
theorem rewrite_text_concatenation (resp : Response) :
    (textSegments resp = [] →
      processWithAI resp =
        .error "Failed to process with AI: No text content in AI response") ∧
    (textSegments resp ≠ [] →
      processWithAI resp = .ok (String.join (textSegments resp))) := by
  have hmap := filter_text_map resp.content
  constructor
  · intro h
    have hnil : resp.content.filter (fun b =>
        match b with
        | .text _ => true
        | _ => false) = [] := by
      have : (resp.content.filter (fun b =>
          match b with
          | .text _ => true
          | _ => false)).map (fun b =>
          match b with
          | .text s => s
          | _ => "") = [] := by
        rw [hmap]
        exact h
      exact List.map_eq_nil_iff.mp this
    simp [processWithAI, hnil]
  · intro h
    have hne : (resp.content.filter (fun b =>
        match b with
        | .text _ => true
        | _ => false)).length ≠ 0 := by
      intro hzero
      apply h
      show resp.content.filterMap (fun b =>
        match b with
        | .text s => some s
        | _ => none) = []
      rw [← hmap, List.eq_nil_of_length_eq_zero hzero]
      rfl
    simp only [processWithAI, if_neg hne]
    rw [hmap]
    rfl

/-- Witness for C5: a response with two text segments concatenates to
the join of its segments, one with none fails. -/
theorem rewrite_text_concatenation_witness :
    processWithAI respTwoTexts = .ok (String.join (textSegments respTwoTexts)) ∧
    processWithAI respNoText =
      .error "Failed to process with AI: No text content in AI response" :=
  ⟨(rewrite_text_concatenation respTwoTexts).2 (by decide),
   (rewrite_text_concatenation respNoText).1 (by decide)⟩

/-- C6: for every tree, query and cap, search returns at most
maxResults matched documents and its truncated flag is true exactly
when the match count reached maxResults; the missing cap defaults to
50, and with maxResults one against a tree holding two matching
documents search returns exactly one result with truncated true. -/
theorem search_maxResults_truncated (v : Vault) (query : String) (folder : Option String)
    (cs : Bool) (maxResults : Nat) :
    (handleSearchFiles v query folder cs maxResults).results.length ≤ maxResults ∧
    ((handleSearchFiles v query folder cs maxResults).truncated = true ↔
      (handleSearchFiles v query folder cs maxResults).results.length = maxResults) ∧
    defaultMaxResults none = 50 ∧
    (handleSearchFiles twoFooVault "foo" none false 1).results.length = 1 ∧
    (handleSearchFiles twoFooVault "foo" none false 1).truncated = true := by
  have hlen : ∀ fs : List (String × String),
      (searchLoop (simpleSearchMatch (if cs then query else strLower query)) cs maxResults
        fs [] 0).1.length ≤ maxResults :=
    fun fs => searchLoop_len_le _ cs maxResults fs [] 0 (by simp)
  refine ⟨?_, ?_, rfl, by decide, by decide⟩
  · cases folder with
    | none => exact hlen v.files
    | some f => exact hlen (v.files.filter (fun e => strStartsWith e.1 (normFolder f)))
  · cases folder with
    | none =>
      simp only [handleSearchFiles]
      rw [decide_eq_true_iff]
      have hle := hlen v.files
      omega
    | some f =>
      simp only [handleSearchFiles]
      rw [decide_eq_true_iff]
      have hle := hlen (v.files.filter (fun e => strStartsWith e.1 (normFolder f)))
      omega

end AICopilot
